/-
Verification of caffe's multi-GPU synchronization core (src/caffe/parallel.cpp).

The development shallowly embeds the pure content of the file:
  * DevicePair::compute (topology pairing over board / peer-access metadata),
  * apply_buffers / GPUParams::configure (flat-buffer layout of net parameters),
  * the token checks of P2PSync::on_start and P2PSync::on_gradients_ready,
  * the device save/restore discipline of the GPUParams and P2PSync
    constructors and the P2PSync destructor (as device-operation traces),
  * the per-step event order of P2PSync::on_start (as an event trace),
  * the tree gradient reduction of P2PSync::on_gradients_ready,
  * P2PSync::divide_batch_size over net layer parameters.

CUDA device ids are embedded as Int (the sentinel parent id -1 must be
representable); buffers of Dtype are embedded as functions Fin L -> Rat;
glog CHECK failures are embedded as Except.error.
-/
import Mathlib

namespace Caffe

/-- A (parent, device) pair, as in caffe/parallel.hpp: parent = -1 means
the device is the root of the synchronization tree. -/
structure DevicePair where
  parent : Int
  device : Int
deriving DecidableEq, Repr

/-- One scan of the inner `for (j = i + 1; ...)` loop of a pairing pass in
DevicePair::compute: find the first element of the list satisfying the
match predicate and remove it, returning the element and the rest. -/
def findRemove (p : Int → Bool) : List Int → Option (Int × List Int)
  | [] => none
  | y :: ys =>
    if p y then some (y, ys)
    else
      match findRemove p ys with
      | some (z, zs) => some (z, y :: zs)
      | none => none

theorem findRemove_length (p : Int → Bool) (l : List Int) (y : Int)
    (ys : List Int) (h : findRemove p l = some (y, ys)) :
    ys.length + 1 = l.length := by
  induction l generalizing ys with
  | nil => simp [findRemove] at h
  | cons a l ih =>
    simp only [findRemove] at h
    split at h
    · simp only [Option.some.injEq, Prod.mk.injEq] at h
      obtain ⟨rfl, rfl⟩ := h
      rfl
    · split at h
      · rename_i z zs heq
        simp only [Option.some.injEq, Prod.mk.injEq] at h
        obtain ⟨rfl, rfl⟩ := h
        have := ih zs heq
        simp only [List.length_cons]
        omega
      · exact absurd h (by simp)

/-- One pairing pass of DevicePair::compute (the `for (i ...) { for (j = i+1 ...) }`
loop with `remaining.erase(remaining.begin() + j); break;`): the element at the
scan index looks for the first later element matching it; on a match the pair
(scan element, matched element) is emitted, the matched element alone is erased
from the remaining list, and the scan moves past the scan element.  Returns the
emitted pairs and the remaining list after the pass. -/
def passAux (m : Int → Int → Bool) : List Int → List DevicePair × List Int
  | [] => ([], [])
  | x :: xs =>
    match h : findRemove (m x) xs with
    | some (y, xs') =>
      let r := passAux m xs'
      (⟨x, y⟩ :: r.1, x :: r.2)
    | none =>
      let r := passAux m xs
      (r.1, x :: r.2)
termination_by l => l.length
decreasing_by
  all_goals simp_wf
  all_goals
    first
    | (have hfl := findRemove_length _ _ _ _ h
       omega)
    | omega

theorem findRemove_perm (p : Int → Bool) (l : List Int) (y : Int)
    (ys : List Int) (h : findRemove p l = some (y, ys)) :
    l.Perm (y :: ys) := by
  induction l generalizing ys with
  | nil => simp [findRemove] at h
  | cons a l ih =>
    simp only [findRemove] at h
    split at h
    · simp only [Option.some.injEq, Prod.mk.injEq] at h
      obtain ⟨rfl, rfl⟩ := h
      exact List.Perm.refl _
    · split at h
      · rename_i z zs heq
        simp only [Option.some.injEq, Prod.mk.injEq] at h
        obtain ⟨rfl, rfl⟩ := h
        exact ((ih zs heq).cons a).trans (List.Perm.swap z a zs)
      · exact absurd h (by simp)

theorem passAux_nil (m : Int → Int → Bool) : passAux m [] = ([], []) := by
  simp [passAux]

theorem passAux_cons_some (m : Int → Int → Bool) (x : Int) (xs : List Int)
    (y : Int) (xs' : List Int) (h : findRemove (m x) xs = some (y, xs')) :
    passAux m (x :: xs) =
      (⟨x, y⟩ :: (passAux m xs').1, x :: (passAux m xs').2) := by
  simp only [passAux]
  split
  · rename_i y1 xs1 heq
    rw [h] at heq
    simp only [Option.some.injEq, Prod.mk.injEq] at heq
    obtain ⟨rfl, rfl⟩ := heq
    rfl
  · rename_i heq
    rw [h] at heq
    exact absurd heq (by simp)

theorem passAux_cons_none (m : Int → Int → Bool) (x : Int) (xs : List Int)
    (h : findRemove (m x) xs = none) :
    passAux m (x :: xs) = ((passAux m xs).1, x :: (passAux m xs).2) := by
  simp only [passAux]
  split
  · rename_i y1 xs1 heq
    rw [h] at heq
    exact absurd heq (by simp)
  · rfl

/-- The input of a pairing pass is a permutation of the pass's remaining list
together with the `device` (child) fields of the emitted pairs: a matched pair
removes exactly its child from the remaining list. -/
theorem passAux_perm (m : Int → Int → Bool) (l : List Int) :
    l.Perm ((passAux m l).2 ++ (passAux m l).1.map DevicePair.device) := by
  induction l using passAux.induct m with
  | case1 => simp [passAux_nil]
  | case2 x xs y xs' h ih =>
    rw [passAux_cons_some m x xs y xs' h]
    have hfr := findRemove_perm (m x) xs y xs' h
    refine (hfr.cons x).trans ?_
    refine ((ih.cons y).cons x).trans ?_
    exact List.perm_middle.symm.cons x
  | case3 x xs h ih =>
    rw [passAux_cons_none m x xs h]
    exact ih.cons x

/-- The `parent` field of every pair emitted by a pairing pass is still in the
pass's remaining list: a match does not remove the scanning device. -/
theorem passAux_parent_mem (m : Int → Int → Bool) (l : List Int)
    (pr : DevicePair) (hpr : pr ∈ (passAux m l).1) :
    pr.parent ∈ (passAux m l).2 := by
  induction l using passAux.induct m with
  | case1 => rw [passAux_nil] at hpr; simp at hpr
  | case2 x xs y xs' h ih =>
    rw [passAux_cons_some m x xs y xs' h] at hpr ⊢
    rcases List.mem_cons.mp hpr with rfl | hpr
    · exact List.mem_cons_self _ _
    · exact List.mem_cons_of_mem _ (ih hpr)
  | case3 x xs h ih =>
    rw [passAux_cons_none m x xs h] at hpr ⊢
    exact List.mem_cons_of_mem _ (ih hpr)

/-- The board-grouping match of the first pass: both devices report
isMultiGpuBoard and share multiGpuBoardGroupID.  Board metadata is embedded as
a partial map from device id to board group id. -/
def boardMatch (b : Int → Option Int) (x y : Int) : Bool :=
  match b x, b y with
  | some gx, some gy => gx == gy
  | _, _ => false

/-- The pairwise-distinct `device` fields check of DevicePair::compute's final
double loop (`CHECK((*pairs)[i].device() != (*pairs)[j].device())`). -/
def devicesDistinct : List DevicePair → Bool
  | [] => true
  | p :: rest => (rest.all fun q => !(p.device == q.device)) && devicesDistinct rest

theorem passAux_rem_subset (m : Int → Int → Bool) (l : List Int) (x : Int)
    (hx : x ∈ (passAux m l).2) : x ∈ l :=
  (passAux_perm m l).mem_iff.mpr (List.mem_append_left _ hx)

/-- DevicePair::compute: three pairing passes (board grouping, peer access,
arbitrary fallback) over the remaining-device list, then the fatal checks:
exactly one device remains and becomes the root pair (-1, root) inserted at
the front; the pair count equals the device count; no pair is its own parent;
no two pairs share a device.  CHECK failures are embedded as Except.error. -/
def compute (b : Int → Option Int) (p2p : Int → Int → Bool)
    (devices : List Int) : Except String (List DevicePair) :=
  let boards := passAux (boardMatch b) devices
  let links := passAux p2p boards.2
  let rest := passAux (fun _ _ => true) links.2
  match rest.2 with
  | [root] =>
    let pairs := DevicePair.mk (-1) root :: (boards.1 ++ links.1 ++ rest.1)
    if pairs.length == devices.length &&
        (pairs.all fun pr => !(pr.parent == pr.device)) &&
        devicesDistinct pairs then
      .ok pairs
    else
      .error "CHECK failed: pairing invariants"
  | _ => .error "CHECK_EQ(remaining.size(), 1)"

theorem devicesDistinct_iff (ps : List DevicePair) :
    devicesDistinct ps = true ↔ (ps.map DevicePair.device).Nodup := by
  induction ps with
  | nil => simp [devicesDistinct]
  | cons p rest ih =>
    simp only [devicesDistinct, Bool.and_eq_true, List.all_eq_true,
      List.map_cons, List.nodup_cons, List.mem_map, ih]
    constructor
    · rintro ⟨hall, hnd⟩
      refine ⟨?_, hnd⟩
      rintro ⟨q, hq, hdev⟩
      have := hall q hq
      simp only [Bool.not_eq_eq_eq_not, Bool.not_true, beq_eq_false_iff_ne,
        ne_eq] at this
      exact this hdev.symm
    · rintro ⟨hne, hnd⟩
      refine ⟨?_, hnd⟩
      intro q hq
      simp only [Bool.not_eq_eq_eq_not, Bool.not_true, beq_eq_false_iff_ne,
        ne_eq]
      intro hdev
      exact hne ⟨q, hq, hdev.symm⟩

/-- Success of DevicePair::compute determines the result's shape and validates
its final CHECKs: one remaining root device, the root pair in front, pair count
equals device count, no self-parenting, pairwise-distinct device fields. -/
theorem compute_ok_elim (b : Int → Option Int) (p2p : Int → Int → Bool)
    (devices : List Int) (ps : List DevicePair)
    (hok : compute b p2p devices = .ok ps) :
    ∃ root,
      (passAux (fun _ _ => true) (passAux p2p (passAux (boardMatch b) devices).2).2).2
        = [root] ∧
      ps = DevicePair.mk (-1) root ::
        ((passAux (boardMatch b) devices).1 ++
          (passAux p2p (passAux (boardMatch b) devices).2).1 ++
          (passAux (fun _ _ => true) (passAux p2p (passAux (boardMatch b) devices).2).2).1) ∧
      ps.length = devices.length ∧
      (∀ pr ∈ ps, pr.parent ≠ pr.device) ∧
      (ps.map DevicePair.device).Nodup := by
  simp only [compute] at hok
  split at hok
  · rename_i root hrest
    split at hok
    · rename_i hcond
      simp only [Bool.and_eq_true, beq_iff_eq, List.all_eq_true,
        Bool.not_eq_eq_eq_not, Bool.not_true, beq_eq_false_iff_ne, ne_eq,
        devicesDistinct_iff] at hcond
      obtain ⟨⟨hlen, hself⟩, hnd⟩ := hcond
      obtain rfl : _ = ps := Except.ok.inj hok
      exact ⟨root, hrest, rfl, hlen, fun pr hpr => hself pr hpr, hnd⟩
    · exact absurd hok (by simp)
  · exact absurd hok (by simp)

theorem perm_rotate3 (A B C : List Int) : ((A ++ B) ++ C).Perm ((C ++ B) ++ A) := by
  refine List.perm_append_comm.trans ?_
  refine (List.Perm.append_left C List.perm_append_comm).trans ?_
  rw [List.append_assoc]

/-- C3 (amended): whenever DevicePair::compute succeeds on a device list of
size at least 2 that does not contain the sentinel id -1, the resulting pair
list has length N, its first element is the synthetic root pair (parent = -1),
exactly one pair has parent = -1, no pair has parent equal to its own device,
and the device fields are a permutation of the input devices, each appearing
exactly once. -/
theorem compute_topology (b : Int → Option Int) (p2p : Int → Int → Bool)
    (devices : List Int) (ps : List DevicePair)
    (hok : compute b p2p devices = .ok ps)
    (hN : 2 ≤ devices.length) (hm1 : (-1 : Int) ∉ devices) :
    ps.length = devices.length ∧
    (∃ r, ps.head? = some (DevicePair.mk (-1) r)) ∧
    ps.countP (fun pr => pr.parent == -1) = 1 ∧
    (∀ pr ∈ ps, pr.parent ≠ pr.device) ∧
    (ps.map DevicePair.device).Perm devices ∧
    (ps.map DevicePair.device).Nodup := by
  obtain ⟨root, hrest, hps, hlen, hself, hnd⟩ := compute_ok_elim b p2p devices ps hok
  have p1 := passAux_perm (boardMatch b) devices
  have p2 := passAux_perm p2p (passAux (boardMatch b) devices).2
  have p3 := passAux_perm (fun _ _ => true)
    (passAux p2p (passAux (boardMatch b) devices).2).2
  rw [hrest] at p3
  refine ⟨hlen, ⟨root, by rw [hps]; rfl⟩, ?_, hself, ?_, hnd⟩
  · -- exactly one root pair: every non-root parent is an input device, hence not -1
    have hparent : ∀ pr ∈ (passAux (boardMatch b) devices).1 ++
        (passAux p2p (passAux (boardMatch b) devices).2).1 ++
        (passAux (fun _ _ => true) (passAux p2p (passAux (boardMatch b) devices).2).2).1,
        pr.parent ∈ devices := by
      intro pr hpr
      rcases List.mem_append.mp hpr with hpr' | h3
      · rcases List.mem_append.mp hpr' with h1 | h2
        · exact passAux_rem_subset _ _ _ (passAux_parent_mem _ _ _ h1)
        · exact passAux_rem_subset _ _ _
            (passAux_rem_subset _ _ _ (passAux_parent_mem _ _ _ h2))
      · have hmem := passAux_parent_mem _ _ _ h3
        rw [hrest] at hmem
        have hroot : root ∈ (passAux p2p (passAux (boardMatch b) devices).2).2 :=
          p3.mem_iff.mpr (List.mem_append_left _ (List.mem_singleton.mpr rfl))
        rcases List.mem_singleton.mp hmem with h
        rw [h]
        exact passAux_rem_subset _ _ _ (passAux_rem_subset _ _ _ hroot)
    rw [hps, List.countP_cons]
    have hzero : List.countP (fun pr => pr.parent == -1)
        ((passAux (boardMatch b) devices).1 ++
          (passAux p2p (passAux (boardMatch b) devices).2).1 ++
          (passAux (fun _ _ => true) (passAux p2p (passAux (boardMatch b) devices).2).2).1) = 0 := by
      refine List.countP_eq_zero.mpr ?_
      intro pr hpr
      simp only [beq_iff_eq]
      intro hbad
      exact hm1 (hbad ▸ hparent pr hpr)
    rw [hzero]
    simp
  · -- device multiset equals input
    rw [hps, List.map_cons, List.map_append, List.map_append]
    have key : devices.Perm
        (root :: (((passAux (fun _ _ => true) (passAux p2p (passAux (boardMatch b) devices).2).2).1.map DevicePair.device ++
          (passAux p2p (passAux (boardMatch b) devices).2).1.map DevicePair.device) ++
          (passAux (boardMatch b) devices).1.map DevicePair.device)) := by
      refine p1.trans ?_
      refine (List.Perm.append_right _ p2).trans ?_
      refine (List.Perm.append_right _ (List.Perm.append_right _ p3)).trans ?_
      simp [List.append_assoc]
    refine (List.Perm.cons _ ?_).trans key.symm
    have := perm_rotate3
      ((passAux (boardMatch b) devices).1.map DevicePair.device)
      ((passAux p2p (passAux (boardMatch b) devices).2).1.map DevicePair.device)
      ((passAux (fun _ _ => true) (passAux p2p (passAux (boardMatch b) devices).2).2).1.map DevicePair.device)
    refine this.trans ?_
    rw [List.append_assoc]

/-- C3 (counterexample): on the 6-device input [0..5] with no board grouping
and no peer access, DevicePair::compute does not return a pair list at all: the
single sweep of the fallback pass leaves three devices remaining and the
CHECK_EQ(remaining.size(), 1) assertion aborts the run. -/
theorem compute_aborts_six_devices :
    compute (fun _ => none) (fun _ _ => false) [0, 1, 2, 3, 4, 5] =
      .error "CHECK_EQ(remaining.size(), 1)" := by
  simp [compute, passAux, findRemove, boardMatch]

/-- C3 (witness): the amended success theorem instantiated on the two-device
input [0, 1], where compute succeeds with pairs [(-1, 0), (0, 1)]. -/
theorem compute_topology_witness :
    compute (fun _ => none) (fun _ _ => false) [0, 1] = .ok [⟨-1, 0⟩, ⟨0, 1⟩] ∧
    2 ≤ ([0, 1] : List Int).length ∧ (-1 : Int) ∉ ([0, 1] : List Int) ∧
    (([⟨-1, 0⟩, ⟨0, 1⟩] : List DevicePair).length = ([0, 1] : List Int).length ∧
      (∃ r, ([⟨-1, 0⟩, ⟨0, 1⟩] : List DevicePair).head? = some (DevicePair.mk (-1) r)) ∧
      ([⟨-1, 0⟩, ⟨0, 1⟩] : List DevicePair).countP (fun pr => pr.parent == -1) = 1 ∧
      (∀ pr ∈ ([⟨-1, 0⟩, ⟨0, 1⟩] : List DevicePair), pr.parent ≠ pr.device) ∧
      (([⟨-1, 0⟩, ⟨0, 1⟩] : List DevicePair).map DevicePair.device).Perm [0, 1] ∧
      (([⟨-1, 0⟩, ⟨0, 1⟩] : List DevicePair).map DevicePair.device).Nodup) :=
  ⟨by simp [compute, passAux, findRemove, boardMatch, devicesDistinct],
   by decide, by decide,
   compute_topology (fun _ => none) (fun _ _ => false) [0, 1] [⟨-1, 0⟩, ⟨0, 1⟩]
     (by simp [compute, passAux, findRemove, boardMatch, devicesDistinct])
     (by decide) (by decide)⟩

/-- C4 (counterexample): with devices [0, 1, 2] where 0 and 1 share a board,
the board pass matches the pair (0, 1) but removes only device 1 from the
remaining list: device 0 (the matched parent) stays in the remaining set and is
matched again by the fallback pass, ending as the parent of both 1 and 2.
This refutes the claim that both matched devices are removed before subsequent
matching. -/
theorem pass_parent_not_removed_example :
    passAux (boardMatch fun d => if d = 0 ∨ d = 1 then some 0 else none) [0, 1, 2] =
      ([⟨0, 1⟩], [0, 2]) ∧
    compute (fun d => if d = 0 ∨ d = 1 then some 0 else none) (fun _ _ => false)
      [0, 1, 2] = .ok [⟨-1, 0⟩, ⟨0, 1⟩, ⟨0, 2⟩] := by
  constructor
  · simp [passAux, findRemove, boardMatch]
  · simp [compute, passAux, findRemove, boardMatch, devicesDistinct]

/-- C4 (amended): when a pass matches a pair, only the second (child) device
is removed from the remaining set — the input of a pass is a permutation of
its remaining output plus the child fields of its emitted pairs, and every
emitted pair's parent is still in the remaining output, available to later
passes.  When compute succeeds, exactly one device is left after the three
passes and it becomes the root pair (-1, root) at the head of the result. -/
theorem pass_child_only_removed (m : Int → Int → Bool) (l : List Int) :
    l.Perm ((passAux m l).2 ++ (passAux m l).1.map DevicePair.device) ∧
    (∀ pr ∈ (passAux m l).1, pr.parent ∈ (passAux m l).2) ∧
    (∀ (b : Int → Option Int) (p2p : Int → Int → Bool) (devices : List Int)
      (ps : List DevicePair), compute b p2p devices = .ok ps →
      ∃ root,
        (passAux (fun _ _ => true) (passAux p2p (passAux (boardMatch b) devices).2).2).2
          = [root] ∧
        ps.head? = some (DevicePair.mk (-1) root)) := by
  refine ⟨passAux_perm m l, fun pr hpr => passAux_parent_mem m l pr hpr, ?_⟩
  intro b p2p devices ps hok
  obtain ⟨root, hrest, hps, -⟩ := compute_ok_elim b p2p devices ps hok
  exact ⟨root, hrest, by rw [hps]; rfl⟩

/-- C4 (witness): the amended pass theorem instantiated on the board pass of
devices [0, 1, 2] with 0 and 1 sharing a board, and on the successful compute
run of the same input. -/
theorem pass_child_only_removed_witness :
    ([0, 1, 2] : List Int).Perm
      ((passAux (boardMatch fun d => if d = 0 ∨ d = 1 then some 0 else none) [0, 1, 2]).2 ++
        (passAux (boardMatch fun d => if d = 0 ∨ d = 1 then some 0 else none) [0, 1, 2]).1.map
          DevicePair.device) ∧
    (∃ root,
      (passAux (fun _ _ => true)
          (passAux (fun _ _ => false)
            (passAux (boardMatch fun d => if d = 0 ∨ d = 1 then some 0 else none)
              [0, 1, 2]).2).2).2 = [root] ∧
      ([⟨-1, 0⟩, ⟨0, 1⟩, ⟨0, 2⟩] : List DevicePair).head? =
        some (DevicePair.mk (-1) root)) :=
  ⟨(pass_child_only_removed
      (boardMatch fun d => if d = 0 ∨ d = 1 then some 0 else none) [0, 1, 2]).1,
   (pass_child_only_removed
      (boardMatch fun d => if d = 0 ∨ d = 1 then some 0 else none) [0, 1, 2]).2.2
     (fun d => if d = 0 ∨ d = 1 then some 0 else none) (fun _ _ => false)
     [0, 1, 2] [⟨-1, 0⟩, ⟨0, 1⟩, ⟨0, 2⟩]
     (by simp [compute, passAux, findRemove, boardMatch, devicesDistinct])⟩

/-- C5 (code bug): on 4 devices with no shared board and no peer access, the
single sweep of the fallback pass pairs (0, 1) and (2, 3) and leaves the two
parents 0 and 2 remaining, so CHECK_EQ(remaining.size(), 1) fails and
DevicePair::compute aborts instead of pairing the remaining two devices in a
later pass. -/
theorem compute_four_devices_aborts :
    passAux (fun _ _ => true) [0, 1, 2, 3] = ([⟨0, 1⟩, ⟨2, 3⟩], [0, 2]) ∧
    compute (fun _ => none) (fun _ _ => false) [0, 1, 2, 3] =
      .error "CHECK_EQ(remaining.size(), 1)" := by
  constructor
  · simp [passAux, findRemove]
  · simp [compute, passAux, findRemove, boardMatch]

/-- The Op enum of parallel.cpp: which storage pointer apply_buffers rewires
(or copy, which initializes the flat buffer from the blobs). -/
inductive Op where
  | copy
  | replace_cpu
  | replace_gpu
  | replace_cpu_diff
  | replace_gpu_diff
deriving DecidableEq, Repr

/-- The pointer walk of apply_buffers: each blob in net order is assigned the
current offset `ptr` into the flat buffer and `ptr` advances by the blob's
element count.  Returns the per-blob offsets and the final pointer. -/
def applyBuffersGo : List Nat → Nat → List Nat × Nat
  | [], p => ([], p)
  | c :: cs, p =>
    let r := applyBuffersGo cs (p + c)
    (p :: r.1, r.2)

/-- apply_buffers: walk the blobs, assigning each the next offset of the flat
buffer (the chosen Op decides which storage pointer of the blob is involved,
not the walk itself), then CHECK_EQ(total_size, ptr - buffer).  The CHECK
failure is embedded as Except.error; on success the per-blob offsets within
the buffer are returned. -/
def apply_buffers (counts : List Nat) (total : Nat) (op : Op) :
    Except String (List Nat) :=
  let r := applyBuffersGo counts 0
  if r.2 = total then .ok r.1 else .error "CHECK_EQ(total_size, ptr - buffer)"

theorem applyBuffersGo_snd (counts : List Nat) (p : Nat) :
    (applyBuffersGo counts p).2 = p + counts.sum := by
  induction counts generalizing p with
  | nil => simp [applyBuffersGo]
  | cons c cs ih =>
    simp only [applyBuffersGo, List.sum_cons]
    rw [ih]
    omega

theorem applyBuffersGo_get (counts : List Nat) (p i : Nat)
    (hi : i < counts.length) :
    (applyBuffersGo counts p).1.get? i = some (p + (counts.take i).sum) := by
  induction counts generalizing p i with
  | nil => simp at hi
  | cons c cs ih =>
    cases i with
    | zero => simp [applyBuffersGo]
    | succ j =>
      simp only [applyBuffersGo, List.get?_cons_succ, List.take_succ_cons,
        List.sum_cons]
      rw [ih (p + c) j (by simpa using hi)]
      congr 1
      omega

theorem applyBuffersGo_length (counts : List Nat) (p : Nat) :
    (applyBuffersGo counts p).1.length = counts.length := by
  induction counts generalizing p with
  | nil => rfl
  | cons c cs ih => simp [applyBuffersGo, ih]

/-- C6: apply_buffers completes exactly when the summed per-blob element
counts equal the declared buffer size, for every Op; any mismatch (short or
long) is a fatal CHECK failure, never a silent truncation or padding. -/
theorem apply_buffers_exact_size (counts : List Nat) (total : Nat) (op : Op) :
    (apply_buffers counts total op).isOk = true ↔ counts.sum = total := by
  simp only [apply_buffers, applyBuffersGo_snd, Nat.zero_add]
  split
  · rename_i h
    simp [Except.isOk, Except.toBool, h]
  · rename_i h
    simp [Except.isOk, Except.toBool, h]

/-- GPUParams::configure: rewire every parameter blob's data storage to the
mirror's data buffer and its diff storage to the mirror's diff buffer, via two
apply_buffers walks over the same net parameter counts against the declared
size_.  Returns the data offsets and diff offsets of each blob. -/
def configure (counts : List Nat) (size : Nat) :
    Except String (List Nat × List Nat) := do
  let dataOffs ← apply_buffers counts size Op.replace_gpu
  let diffOffs ← apply_buffers counts size Op.replace_gpu_diff
  return (dataOffs, diffOffs)

/-- C7: after configure with size_ equal to the net's total parameter count
(as set by the Params constructor), blob i's data storage sits at offset
sum of counts 0..i-1 inside the data buffer and its diff storage at the same
offset inside the diff buffer; the layout is a function of the counts alone,
so all workers configured from the same net share it. -/
theorem configure_offsets (counts : List Nat) (size : Nat)
    (h : size = counts.sum) :
    ∃ offs, configure counts size = .ok (offs, offs) ∧
      offs.length = counts.length ∧
      ∀ i, i < counts.length → offs.get? i = some ((counts.take i).sum) := by
  refine ⟨(applyBuffersGo counts 0).1, ?_, applyBuffersGo_length counts 0, ?_⟩
  · simp only [configure, apply_buffers, applyBuffersGo_snd, Nat.zero_add, h,
      if_pos rfl]
    rfl
  · intro i hi
    simpa using applyBuffersGo_get counts 0 i hi

/-- C7 (witness): configure on concrete counts [3, 5, 2] with size 10 places
the blobs at offsets [0, 3, 8] in both buffers. -/
theorem configure_offsets_witness :
    (10 : Nat) = ([3, 5, 2] : List Nat).sum ∧
    ∃ offs, configure [3, 5, 2] 10 = .ok (offs, offs) ∧
      offs.length = ([3, 5, 2] : List Nat).length ∧
      ∀ i, i < ([3, 5, 2] : List Nat).length →
        offs.get? i = some ((([3, 5, 2] : List Nat).take i).sum) :=
  ⟨by decide, configure_offsets [3, 5, 2] 10 (by decide)⟩

/-- The parent-token check of P2PSync::on_start: the token popped from this
worker's queue must be the parent (`CHECK(parent == parent_)`); this CHECK is
compiled unconditionally.  Workers are identified by device id. -/
def onStartPopCheck (parentId popped : Int) : Except String Unit :=
  if popped == parentId then .ok () else .error "CHECK(parent == parent_)"

/-- The child-token check of P2PSync::on_gradients_ready: the popped token is
scanned against the children list and `CHECK(ok)` fires if absent — but the
whole scan is inside `#ifdef DEBUG`, so it only exists when debug checks are
compiled in. -/
def onGradientsPopCheck (debug : Bool) (children : List Int) (popped : Int) :
    Except String Unit :=
  if debug then
    if children.contains popped then .ok () else .error "CHECK(ok)"
  else .ok ()

/-- C8 (counterexample): in a non-debug build, on_gradients_ready accepts a
token naming worker 3 even though the children are [1, 2]: the unexpected
sender is not detected, contradicting the claim that it aborts the run. -/
theorem onGradientsPopCheck_nodebug_accepts :
    onGradientsPopCheck false [1, 2] 3 = .ok () := rfl

/-- C8 (amended): in on_start a popped token different from the parent always
aborts; in on_gradients_ready a popped token naming a non-child aborts exactly
when debug checks are compiled in, and is not checked at all otherwise. -/
theorem unexpected_sender_checks (parentId popped : Int) (children : List Int) :
    ((onStartPopCheck parentId popped).isOk = true ↔ popped = parentId) ∧
    ((onGradientsPopCheck true children popped).isOk = true ↔ popped ∈ children) ∧
    (onGradientsPopCheck false children popped).isOk = true := by
  refine ⟨?_, ?_, rfl⟩
  · simp only [onStartPopCheck]
    split
    · rename_i h
      simp [Except.isOk, Except.toBool, beq_iff_eq] at h ⊢
      exact h
    · rename_i h
      simp [Except.isOk, Except.toBool, beq_iff_eq] at h ⊢
      exact h
  · simp only [onGradientsPopCheck, if_pos rfl]
    by_cases h : popped ∈ children
    · have hc : children.contains popped = true := by simpa using h
      simp [hc, Except.isOk, Except.toBool, h]
    · have hc : children.contains popped = false := by simpa using h
      simp [hc, Except.isOk, Except.toBool, h]

/-- A device-context operation executed by GPUParams, P2PSync construction and
destruction: either cudaSetDevice or some other device primitive (malloc,
copy, free, peer-access toggling), which does not change the active device. -/
inductive DevOp where
  | set (d : Int)
  | other
deriving DecidableEq, Repr

/-- The thread's active device after running a trace of device operations
starting from `start` (cudaGetDevice at entry reads `start`). -/
def applyTrace (start : Int) (t : List DevOp) : Int :=
  t.foldl (fun s op => match op with | .set d => d | .other => s) start

/-- Device-operation trace of GPUParams::GPUParams(root_solver, device):
save the initial device, switch to the worker's device, allocate and fill the
two buffers, restore the initial device. -/
def gpuParamsCtorTrace (device initial : Int) : List DevOp :=
  [.set device, .other, .other, .other, .other, .set initial]

/-- Device-operation trace of P2PSync::P2PSync: save the initial device,
switch to self, configure the solver, and if there is a parent optionally
enable peer access, switch to the parent's device to allocate the staging
buffer parent_grads_, switch back to self; finally restore the initial
device. -/
def p2pSyncCtorTrace (self : Int) (parent : Option Int) (initial : Int) :
    List DevOp :=
  [.set self] ++
  (match parent with
   | some peer => [.other, .set peer, .other, .set self]
   | none => []) ++
  [.set initial]

/-- Device-operation trace of P2PSync::~P2PSync: save the initial device,
switch to self, free the staging buffer and disable peer access when there is
a parent, restore the initial device. -/
def p2pSyncDtorTrace (self : Int) (parent : Option Int) (initial : Int) :
    List DevOp :=
  [.set self] ++
  (match parent with
   | some _ => [.other, .other]
   | none => []) ++
  [.set initial]

/-- C9: the GPUParams constructor, the P2PSync constructor and the P2PSync
destructor leave the thread's active device as they found it — each trace ends
by restoring the device read at entry — even though each switches to the
worker's own device in between (and the constructor with a parent also to the
parent's device for the staging-buffer allocation). -/
theorem device_context_restored (start self peer : Int)
    (parent : Option Int) :
    applyTrace start (gpuParamsCtorTrace self start) = start ∧
    applyTrace start (p2pSyncCtorTrace self parent start) = start ∧
    applyTrace start (p2pSyncDtorTrace self parent start) = start ∧
    DevOp.set self ∈ gpuParamsCtorTrace self start ∧
    DevOp.set self ∈ p2pSyncCtorTrace self parent start ∧
    DevOp.set self ∈ p2pSyncDtorTrace self parent start ∧
    DevOp.set peer ∈ p2pSyncCtorTrace self (some peer) start := by
  refine ⟨rfl, ?_, ?_, by simp [gpuParamsCtorTrace], ?_, ?_,
    by simp [p2pSyncCtorTrace]⟩ <;>
    cases parent <;>
    simp [p2pSyncCtorTrace, p2pSyncDtorTrace, applyTrace]

/-- DataParameter as used by divide_batch_size: an optional batch_size field
and the prefetch field (a uint32 with a protobuf default, always readable). -/
structure DataParam where
  batch_size : Option Nat
  prefetch : Nat
deriving DecidableEq, Repr

/-- The slice of LayerParameter that divide_batch_size touches: each of the
five data-layer parameter messages is optional (has_X_param), and within the
four non-data ones only the optional batch_size matters here. -/
structure LayerParameter where
  data_param : Option DataParam
  hdf5_data_param : Option (Option Nat)
  image_data_param : Option (Option Nat)
  memory_data_param : Option (Option Nat)
  window_data_param : Option (Option Nat)
deriving DecidableEq, Repr

/-- uint32 modulus for the prefetch multiplication. -/
def u32size : Nat := 4294967296

/-- The per-field division of divide_batch_size:
`batch = total / solver_count; CHECK(batch * solver_count == total)`. -/
def divideCheckedBatch (sc total : Nat) : Except String Nat :=
  let batch := total / sc
  if batch * sc = total then .ok batch
  else .error "Batch size must be divisible by the number of solvers (GPUs)"

/-- divide_batch_size on the data_param field: when a batch size is declared,
divide it by the solver count and multiply the shared prefetch count by the
solver count (uint32 arithmetic); otherwise leave the field untouched. -/
def divideDataParam (sc : Nat) : Option DataParam → Except String (Option DataParam)
  | some dp =>
    match dp.batch_size with
    | some total =>
      match divideCheckedBatch sc total with
      | .ok batch => .ok (some ⟨some batch, dp.prefetch * sc % u32size⟩)
      | .error e => .error e
    | none => .ok (some dp)
  | none => .ok none

/-- divide_batch_size on one of the four non-data param fields: when present
with a declared batch size, divide it by the solver count; otherwise leave the
field untouched. -/
def divideSimpleParam (sc : Nat) : Option (Option Nat) → Except String (Option (Option Nat))
  | some (some total) =>
    match divideCheckedBatch sc total with
    | .ok batch => .ok (some (some batch))
    | .error e => .error e
  | some none => .ok (some none)
  | none => .ok none

/-- One iteration of the divide_batch_size layer loop: the five param fields
are processed in source order, the first CHECK failure aborting. -/
def divideLayer (sc : Nat) (l : LayerParameter) : Except String LayerParameter :=
  match divideDataParam sc l.data_param with
  | .error e => .error e
  | .ok d =>
    match divideSimpleParam sc l.hdf5_data_param with
    | .error e => .error e
    | .ok h5 =>
      match divideSimpleParam sc l.image_data_param with
      | .error e => .error e
      | .ok im =>
        match divideSimpleParam sc l.memory_data_param with
        | .error e => .error e
        | .ok mem =>
          match divideSimpleParam sc l.window_data_param with
          | .error e => .error e
          | .ok win => .ok ⟨d, h5, im, mem, win⟩

/-- P2PSync::divide_batch_size over the net's layers in order; the first CHECK
failure aborts the run. -/
def divide_batch_size (sc : Nat) : List LayerParameter → Except String (List LayerParameter)
  | [] => .ok []
  | l :: rest =>
    match divideLayer sc l with
    | .error e => .error e
    | .ok l' =>
      match divide_batch_size sc rest with
      | .error e => .error e
      | .ok rest' => .ok (l' :: rest')

/-- The batch sizes a data_param field declares (none or one). -/
def dataBatch : Option DataParam → List Nat
  | some dp => dp.batch_size.toList
  | none => []

/-- The batch sizes a non-data param field declares (none or one). -/
def simpleBatch : Option (Option Nat) → List Nat
  | some (some t) => [t]
  | _ => []

/-- All batch sizes a layer declares across its five param fields. -/
def declaredBatches (l : LayerParameter) : List Nat :=
  dataBatch l.data_param ++ simpleBatch l.hdf5_data_param ++
  simpleBatch l.image_data_param ++ simpleBatch l.memory_data_param ++
  simpleBatch l.window_data_param

/-- The successful effect of divide_batch_size on a data_param field. -/
def transformDataParam (sc : Nat) : Option DataParam → Option DataParam
  | some dp =>
    match dp.batch_size with
    | some total => some ⟨some (total / sc), dp.prefetch * sc % u32size⟩
    | none => some dp
  | none => none

/-- The successful effect of divide_batch_size on a non-data param field. -/
def transformSimpleParam (sc : Nat) : Option (Option Nat) → Option (Option Nat)
  | some (some total) => some (some (total / sc))
  | x => x

/-- The successful effect of divide_batch_size on one layer. -/
def transformLayer (sc : Nat) (l : LayerParameter) : LayerParameter :=
  ⟨transformDataParam sc l.data_param,
   transformSimpleParam sc l.hdf5_data_param,
   transformSimpleParam sc l.image_data_param,
   transformSimpleParam sc l.memory_data_param,
   transformSimpleParam sc l.window_data_param⟩

theorem div_mul_eq_iff_dvd (sc total : Nat) :
    total / sc * sc = total ↔ sc ∣ total := by
  constructor
  · intro h
    have hm := Nat.mod_add_div' total sc
    exact Nat.dvd_of_mod_eq_zero (by omega)
  · exact fun h => Nat.div_mul_cancel h

theorem divideCheckedBatch_eq (sc total : Nat) :
    divideCheckedBatch sc total =
      if sc ∣ total then .ok (total / sc)
      else .error "Batch size must be divisible by the number of solvers (GPUs)" := by
  simp only [divideCheckedBatch, div_mul_eq_iff_dvd]

theorem divideDataParam_eq (sc : Nat) (x : Option DataParam) :
    divideDataParam sc x =
      if ∀ t ∈ dataBatch x, sc ∣ t then .ok (transformDataParam sc x)
      else .error "Batch size must be divisible by the number of solvers (GPUs)" := by
  match x with
  | none => simp [divideDataParam, dataBatch, transformDataParam]
  | some dp =>
    match h : dp.batch_size with
    | none =>
      simp [divideDataParam, dataBatch, transformDataParam, h]
    | some total =>
      simp only [divideDataParam, h, divideCheckedBatch_eq]
      by_cases hd : sc ∣ total <;>
        simp [hd, dataBatch, transformDataParam, h]

theorem divideSimpleParam_eq (sc : Nat) (x : Option (Option Nat)) :
    divideSimpleParam sc x =
      if ∀ t ∈ simpleBatch x, sc ∣ t then .ok (transformSimpleParam sc x)
      else .error "Batch size must be divisible by the number of solvers (GPUs)" := by
  match x with
  | none => simp [divideSimpleParam, simpleBatch, transformSimpleParam]
  | some none => simp [divideSimpleParam, simpleBatch, transformSimpleParam]
  | some (some total) =>
    simp only [divideSimpleParam, divideCheckedBatch_eq]
    by_cases hd : sc ∣ total <;>
      simp [hd, simpleBatch, transformSimpleParam]

theorem mem_declaredBatches (l : LayerParameter) (t : Nat) :
    t ∈ declaredBatches l ↔
      t ∈ dataBatch l.data_param ∨ t ∈ simpleBatch l.hdf5_data_param ∨
      t ∈ simpleBatch l.image_data_param ∨ t ∈ simpleBatch l.memory_data_param ∨
      t ∈ simpleBatch l.window_data_param := by
  simp [declaredBatches, List.mem_append, or_assoc]

theorem divideLayer_eq (sc : Nat) (l : LayerParameter) :
    divideLayer sc l =
      if ∀ t ∈ declaredBatches l, sc ∣ t then .ok (transformLayer sc l)
      else .error "Batch size must be divisible by the number of solvers (GPUs)" := by
  rw [divideLayer, divideDataParam_eq, divideSimpleParam_eq,
    divideSimpleParam_eq, divideSimpleParam_eq, divideSimpleParam_eq]
  by_cases h1 : ∀ t ∈ dataBatch l.data_param, sc ∣ t
  · rw [if_pos h1]
    by_cases h2 : ∀ t ∈ simpleBatch l.hdf5_data_param, sc ∣ t
    · rw [if_pos h2]
      by_cases h3 : ∀ t ∈ simpleBatch l.image_data_param, sc ∣ t
      · rw [if_pos h3]
        by_cases h4 : ∀ t ∈ simpleBatch l.memory_data_param, sc ∣ t
        · rw [if_pos h4]
          by_cases h5 : ∀ t ∈ simpleBatch l.window_data_param, sc ∣ t
          · rw [if_pos h5, if_pos ?all]
            case all =>
              intro t ht
              rcases (mem_declaredBatches l t).mp ht with h | h | h | h | h
              · exact h1 t h
              · exact h2 t h
              · exact h3 t h
              · exact h4 t h
              · exact h5 t h
            rfl
          · have hAll : ¬∀ t ∈ declaredBatches l, sc ∣ t := fun hall =>
              h5 fun t ht => hall t ((mem_declaredBatches l t).mpr (by tauto))
            rw [if_neg h5, if_neg hAll]
            try rfl
        · have hAll : ¬∀ t ∈ declaredBatches l, sc ∣ t := fun hall =>
            h4 fun t ht => hall t ((mem_declaredBatches l t).mpr (by tauto))
          rw [if_neg h4, if_neg hAll]
          try rfl
      · have hAll : ¬∀ t ∈ declaredBatches l, sc ∣ t := fun hall =>
          h3 fun t ht => hall t ((mem_declaredBatches l t).mpr (by tauto))
        rw [if_neg h3, if_neg hAll]
        try rfl
    · have hAll : ¬∀ t ∈ declaredBatches l, sc ∣ t := fun hall =>
        h2 fun t ht => hall t ((mem_declaredBatches l t).mpr (by tauto))
      rw [if_neg h2, if_neg hAll]
      try rfl
  · have hAll : ¬∀ t ∈ declaredBatches l, sc ∣ t := fun hall =>
      h1 fun t ht => hall t ((mem_declaredBatches l t).mpr (by tauto))
    rw [if_neg h1, if_neg hAll]
    try rfl

theorem divide_batch_size_isOk (sc : Nat) (net : List LayerParameter) :
    (divide_batch_size sc net).isOk = true ↔
      ∀ l ∈ net, ∀ t ∈ declaredBatches l, sc ∣ t := by
  induction net with
  | nil => simp [divide_batch_size, Except.isOk, Except.toBool]
  | cons l rest ih =>
    rw [divide_batch_size]
    cases hdl : divideLayer sc l with
    | error e =>
      rw [divideLayer_eq] at hdl
      simp only [Except.isOk, Except.toBool, Bool.false_eq_true, false_iff]
      intro hall
      rw [if_pos (hall l (List.mem_cons_self _ _))] at hdl
      exact absurd hdl (by simp)
    | ok l' =>
      cases hr : divide_batch_size sc rest with
      | error e =>
        rw [hr] at ih
        simp only [Except.isOk, Except.toBool, Bool.false_eq_true,
          false_iff] at ih ⊢
        intro hall
        exact ih fun l2 h2 => hall l2 (List.mem_cons_of_mem _ h2)
      | ok rest' =>
        rw [hr] at ih
        simp only [Except.isOk, Except.toBool, Bool.false_eq_true] at ih ⊢
        simp only [true_iff] at ih ⊢
        intro l2 h2
        rcases List.mem_cons.mp h2 with rfl | h2
        · rw [divideLayer_eq] at hdl
          by_cases hl : ∀ t ∈ declaredBatches l2, sc ∣ t
          · exact hl
          · rw [if_neg hl] at hdl
            exact absurd hdl (by simp)
        · exact ih l2 h2

theorem divide_batch_size_ok_map (sc : Nat) (net net' : List LayerParameter)
    (h : divide_batch_size sc net = .ok net') :
    net' = net.map (transformLayer sc) := by
  induction net generalizing net' with
  | nil =>
    simp only [divide_batch_size, Except.ok.injEq] at h
    simp [← h]
  | cons l rest ih =>
    rw [divide_batch_size] at h
    cases hdl : divideLayer sc l with
    | error e => rw [hdl] at h; exact absurd h (by simp)
    | ok l' =>
      rw [hdl] at h
      cases hr : divide_batch_size sc rest with
      | error e => rw [hr] at h; exact absurd h (by simp)
      | ok rest' =>
        rw [hr] at h
        simp only [Except.ok.injEq] at h
        rw [divideLayer_eq] at hdl
        by_cases hl : ∀ t ∈ declaredBatches l, sc ∣ t
        · rw [if_pos hl] at hdl
          simp only [Except.ok.injEq] at hdl
          rw [List.map_cons, ← h, ← hdl, ih rest' hr]
        · rw [if_neg hl] at hdl
          exact absurd hdl (by simp)

theorem transformLayer_id (sc : Nat) (l : LayerParameter)
    (h : declaredBatches l = []) : transformLayer sc l = l := by
  obtain ⟨d, h5, im, mem, win⟩ := l
  simp only [declaredBatches, List.append_eq_nil] at h
  obtain ⟨⟨⟨⟨hd, hh5⟩, him⟩, hmem⟩, hwin⟩ := h
  simp only [transformLayer, LayerParameter.mk.injEq]
  refine ⟨?_, ?_, ?_, ?_, ?_⟩
  · match d, hd with
    | none, _ => rfl
    | some dp, hd =>
      match hb : dp.batch_size, hd with
      | none, _ => simp [transformDataParam, hb]
      | some t, hd => rw [dataBatch] at hd; simp [hb] at hd
  · match h5, hh5 with
    | none, _ => rfl
    | some none, _ => rfl
    | some (some t), hh5 => simp [simpleBatch] at hh5
  · match im, him with
    | none, _ => rfl
    | some none, _ => rfl
    | some (some t), him => simp [simpleBatch] at him
  · match mem, hmem with
    | none, _ => rfl
    | some none, _ => rfl
    | some (some t), hmem => simp [simpleBatch] at hmem
  · match win, hwin with
    | none, _ => rfl
    | some none, _ => rfl
    | some (some t), hwin => simp [simpleBatch] at hwin

/-- C10: for a positive solver count, divide_batch_size succeeds exactly when
every declared batch size of every layer is divisible by the solver count
(the first non-divisible one aborts fatally); on success each declared batch
size is replaced by batch/solver_count, the data_param prefetch is multiplied
by the solver count (uint32), and layers declaring no batch size are
unchanged. -/
theorem divide_batch_size_spec (sc : Nat) (net : List LayerParameter)
    (hsc : 0 < sc) :
    ((divide_batch_size sc net).isOk = true ↔
      ∀ l ∈ net, ∀ t ∈ declaredBatches l, sc ∣ t) ∧
    (∀ net', divide_batch_size sc net = .ok net' →
      net' = net.map (transformLayer sc)) ∧
    (∀ l : LayerParameter, declaredBatches l = [] → transformLayer sc l = l) :=
  ⟨divide_batch_size_isOk sc net,
   fun net' h => divide_batch_size_ok_map sc net net' h,
   fun l h => transformLayer_id sc l h⟩

/-- A small concrete net: a data layer with batch 64 and prefetch 4, a layer
with no batch size, and an hdf5 layer with batch 10. -/
def demoNet : List LayerParameter :=
  [⟨some ⟨some 64, 4⟩, none, none, none, none⟩,
   ⟨none, none, none, none, none⟩,
   ⟨none, some (some 10), none, none, none⟩]

/-- C10 (witness): the divide_batch_size theorem instantiated at solver
count 2 on the concrete demo net. -/
theorem divide_batch_size_spec_witness :
    (0 : Nat) < 2 ∧
    (((divide_batch_size 2 demoNet).isOk = true ↔
        ∀ l ∈ demoNet, ∀ t ∈ declaredBatches l, 2 ∣ t) ∧
      (∀ net', divide_batch_size 2 demoNet = .ok net' →
        net' = demoNet.map (transformLayer 2)) ∧
      (∀ l : LayerParameter, declaredBatches l = [] → transformLayer 2 l = l)) :=
  ⟨by decide, divide_batch_size_spec 2 demoNet (by decide)⟩

mutual
/-- A synchronization worker's subtree for one step of the reduction phase:
the worker's locally computed gradient buffer diff_ (of size_ = L elements,
embedded as a function Fin L -> Rat) and its children, listed in the order in
which their tokens are popped from the HandoffQueue. -/
inductive WTree (L : Nat) where
  | node (g : Fin L → ℚ) (children : WForest L)
/-- The children of a worker, in token-arrival order. -/
inductive WForest (L : Nat) where
  | nil
  | cons (c : WTree L) (cs : WForest L)
end

mutual
/-- The worker's combined gradient buffer after its on_gradients_ready
reduction loop: starting from its locally computed diff_, each child's staged
buffer parent_grads_ (holding that child's own combined gradients) is added in
as its token is popped. -/
def combinedDiff {L : Nat} : WTree L → (Fin L → ℚ)
  | .node g cs => reduceChildren g cs
/-- The reduction loop of on_gradients_ready: for each child in pop order,
caffe_gpu_add(size_, src, dst, dst) with src the child's staged gradients and
dst this worker's diff_. -/
def reduceChildren {L : Nat} (diff : Fin L → ℚ) : WForest L → (Fin L → ℚ)
  | .nil => diff
  | .cons c cs => reduceChildren (combinedDiff c + diff) cs
end

mutual
/-- The locally computed gradients of every worker in the subtree. -/
def localGrads {L : Nat} : WTree L → List (Fin L → ℚ)
  | .node g cs => g :: forestGrads cs
/-- The locally computed gradients of every worker in the forest. -/
def forestGrads {L : Nat} : WForest L → List (Fin L → ℚ)
  | .nil => []
  | .cons c cs => localGrads c ++ forestGrads cs
end

/-- The number of workers participating in the subtree. -/
def numWorkers {L : Nat} (t : WTree L) : Nat := (localGrads t).length

/-- The root branch of on_gradients_ready: the root has no parent, so after
summing its children it scales diff_ by Dtype(1.0 / Caffe::solver_count())
via caffe_gpu_scal (the run sets solver_count to the participating worker
count). -/
def rootGradient {L : Nat} (solverCount : Nat) (t : WTree L) : Fin L → ℚ :=
  fun i => (1 / (solverCount : ℚ)) * combinedDiff t i

mutual
theorem combinedDiff_eq_sum {L : Nat} (t : WTree L) :
    combinedDiff t = (localGrads t).sum := by
  cases t with
  | node g cs =>
    rw [combinedDiff, localGrads, List.sum_cons,
      reduceChildren_eq_sum g cs, add_comm]
theorem reduceChildren_eq_sum {L : Nat} (diff : Fin L → ℚ) (cs : WForest L) :
    reduceChildren diff cs = (forestGrads cs).sum + diff := by
  cases cs with
  | nil => simp [reduceChildren, forestGrads]
  | cons c cs' =>
    rw [reduceChildren, forestGrads, List.sum_append,
      reduceChildren_eq_sum (combinedDiff c + diff) cs',
      combinedDiff_eq_sum c]
    abel
end

/-- The claim's example: a root with local gradients [1,1,1,1] and two
children with local gradients [2,2,2,2] and [3,3,3,3]. -/
def exampleTree : WTree 4 :=
  .node (fun _ => 1)
    (.cons (.node (fun _ => 2) .nil) (.cons (.node (fun _ => 3) .nil) .nil))

/-- C1: after the root worker's on_gradients_ready, the root's gradient
buffer equals the elementwise sum of the locally computed gradients of all
participating workers, scaled by 1/(number of participating workers); on the
claim's example of 3 workers with gradients [1,1,1,1], [2,2,2,2], [3,3,3,3],
the root holds [2,2,2,2]. -/
theorem gradient_combination_correct (L : Nat) (t : WTree L) :
    rootGradient (numWorkers t) t =
      (1 / (numWorkers t : ℚ)) • (localGrads t).sum ∧
    rootGradient (numWorkers exampleTree) exampleTree = fun _ : Fin 4 => (2 : ℚ) := by
  constructor
  · funext i
    rw [Pi.smul_apply, smul_eq_mul, rootGradient, combinedDiff_eq_sum]
  · funext i
    show (1 / ((numWorkers exampleTree : Nat) : ℚ)) * combinedDiff exampleTree i = 2
    norm_num [numWorkers, localGrads, forestGrads, exampleTree, combinedDiff,
      reduceChildren]

/-- The observable events of one P2PSync::on_start call, in program order.
Workers are identified by device id. -/
inductive BroadcastEv where
  | popParent (sender : Int)
  | issueCopy (child : Int)
  | syncBarrier
  | pushChild (child : Int)
deriving DecidableEq, Repr

def isPopEv : BroadcastEv → Bool
  | .popParent _ => true
  | _ => false

def isCopyEv : BroadcastEv → Bool
  | .issueCopy _ => true
  | _ => false

def isSyncEv : BroadcastEv → Bool
  | .syncBarrier => true
  | _ => false

def isPushEv : BroadcastEv → Bool
  | .pushChild _ => true
  | _ => false

/-- The parent wait at the top of on_start: a non-root worker pops one token
from its own queue (and checks it names the parent) before anything else. -/
def popPart (parent : Option Int) : List BroadcastEv :=
  match parent with
  | some p => [.popParent p]
  | none => []

/-- The single `cudaStreamSynchronize(cudaStreamDefault)` barrier, issued once
iff the worker has children. -/
def syncPart (children : List Int) : List BroadcastEv :=
  if children.isEmpty then [] else [.syncBarrier]

/-- Event trace of P2PSync::on_start: wait for the parent's token (if any),
issue one cudaMemcpyAsync parameter copy per child, synchronize the stream
once for the whole batch, then push this worker's token onto each child's
queue. -/
def on_start_trace (parent : Option Int) (children : List Int) :
    List BroadcastEv :=
  popPart parent ++
    (children.map .issueCopy ++ (syncPart children ++ children.map .pushChild))

theorem pred_pos_upper {α : Type} (p : α → Bool) (xs ys : List α) (i : Nat)
    (hi : i < (xs ++ ys).length) (hys : ∀ e ∈ ys, p e = false)
    (hp : p ((xs ++ ys).get ⟨i, hi⟩) = true) : i < xs.length := by
  induction xs generalizing i with
  | nil =>
    have hmem : (([] : List α) ++ ys).get ⟨i, hi⟩ ∈ ys :=
      List.get_mem ys i hi
    rw [hys _ hmem] at hp
    exact absurd hp (by simp)
  | cons x xs' ih =>
    cases i with
    | zero => simp
    | succ j =>
      have hj : j < (xs' ++ ys).length := by
        simp only [List.cons_append, List.length_cons] at hi
        omega
      have hred : (((x :: xs') ++ ys).get ⟨j + 1, hi⟩) = (xs' ++ ys).get ⟨j, hj⟩ := rfl
      rw [hred] at hp
      have := ih j hj hp
      simp only [List.length_cons]
      omega

theorem pred_pos_lower {α : Type} (p : α → Bool) (xs ys : List α) (i : Nat)
    (hi : i < (xs ++ ys).length) (hxs : ∀ e ∈ xs, p e = false)
    (hp : p ((xs ++ ys).get ⟨i, hi⟩) = true) : xs.length ≤ i := by
  induction xs generalizing i with
  | nil => simp
  | cons x xs' ih =>
    cases i with
    | zero =>
      have hred : (((x :: xs') ++ ys).get ⟨0, hi⟩) = x := rfl
      rw [hred] at hp
      exact absurd (hxs x (List.mem_cons_self _ _)) (by simp [hp])
    | succ j =>
      have hj : j < (xs' ++ ys).length := by
        simp only [List.cons_append, List.length_cons] at hi
        omega
      have hred : (((x :: xs') ++ ys).get ⟨j + 1, hi⟩) = (xs' ++ ys).get ⟨j, hj⟩ := rfl
      rw [hred] at hp
      have := ih j hj (fun e he => hxs e (List.mem_cons_of_mem _ he)) hp
      simp only [List.length_cons]
      omega

theorem seg_lt {α : Type} (p q : α → Bool) (xs ys : List α)
    (hpys : ∀ e ∈ ys, p e = false) (hqxs : ∀ e ∈ xs, q e = false)
    (i j : Fin (xs ++ ys).length)
    (hpi : p ((xs ++ ys).get i) = true) (hqj : q ((xs ++ ys).get j) = true) :
    i < j := by
  have h1 := pred_pos_upper p xs ys i.val i.isLt hpys hpi
  have h2 := pred_pos_lower q xs ys j.val j.isLt hqxs hqj
  exact Fin.lt_def.mpr (by omega)

theorem popPart_class (parent : Option Int) :
    ∀ e ∈ popPart parent,
      isSyncEv e = false ∧ isCopyEv e = false ∧ isPushEv e = false := by
  intro e he
  cases parent with
  | none => simp [popPart] at he
  | some p =>
    simp only [popPart, List.mem_singleton] at he
    subst he
    exact ⟨rfl, rfl, rfl⟩

theorem copies_class (children : List Int) :
    ∀ e ∈ children.map BroadcastEv.issueCopy,
      isSyncEv e = false ∧ isPushEv e = false ∧ isPopEv e = false := by
  intro e he
  obtain ⟨c, -, rfl⟩ := List.mem_map.mp he
  exact ⟨rfl, rfl, rfl⟩

theorem pushes_class (children : List Int) :
    ∀ e ∈ children.map BroadcastEv.pushChild,
      isSyncEv e = false ∧ isCopyEv e = false ∧ isPopEv e = false := by
  intro e he
  obtain ⟨c, -, rfl⟩ := List.mem_map.mp he
  exact ⟨rfl, rfl, rfl⟩

theorem syncPart_class (children : List Int) :
    ∀ e ∈ syncPart children,
      isCopyEv e = false ∧ isPushEv e = false ∧ isPopEv e = false := by
  intro e he
  by_cases hne : children.isEmpty <;> simp [syncPart, hne] at he
  subst he
  exact ⟨rfl, rfl, rfl⟩

theorem beq_issueCopy_false (c : Int) (e : BroadcastEv)
    (h : isCopyEv e = false) : (e == BroadcastEv.issueCopy c) = false := by
  cases e <;> simp_all [isCopyEv]

theorem beq_pushChild_false (c : Int) (e : BroadcastEv)
    (h : isPushEv e = false) : (e == BroadcastEv.pushChild c) = false := by
  cases e <;> simp_all [isPushEv]

/-- C2: in on_start, a worker with children first (when it has a parent) pops
exactly its parent's token as the very first event, then issues exactly one
asynchronous parameter copy per child, executes exactly one stream
synchronization barrier covering the whole batch (not one wait per child)
strictly after every copy, and pushes exactly one ready token per child, all
strictly after the barrier and strictly after the parent pop — so no worker
broadcasts to its children for a step before having itself received (or being
root) for that step. -/
theorem on_start_protocol (parent : Option Int) (children : List Int)
    (hc : children ≠ []) :
    ((on_start_trace parent children).countP isSyncEv = 1) ∧
    (∀ c, (on_start_trace parent children).countP
      (fun e => e == BroadcastEv.issueCopy c) = children.count c) ∧
    (∀ c, (on_start_trace parent children).countP
      (fun e => e == BroadcastEv.pushChild c) = children.count c) ∧
    (∀ p, parent = some p →
      (on_start_trace parent children).head? = some (.popParent p)) ∧
    (∀ i j : Fin (on_start_trace parent children).length,
      isCopyEv ((on_start_trace parent children).get i) = true →
      isSyncEv ((on_start_trace parent children).get j) = true → i < j) ∧
    (∀ i j : Fin (on_start_trace parent children).length,
      isSyncEv ((on_start_trace parent children).get i) = true →
      isPushEv ((on_start_trace parent children).get j) = true → i < j) ∧
    (∀ i j : Fin (on_start_trace parent children).length,
      isPopEv ((on_start_trace parent children).get i) = true →
      isPushEv ((on_start_trace parent children).get j) = true → i < j) := by
  have hce : children.isEmpty = false := by
    cases children with
    | nil => exact absurd rfl hc
    | cons a l => rfl
  have htr1 : on_start_trace parent children =
      (popPart parent ++ children.map BroadcastEv.issueCopy) ++
        (syncPart children ++ children.map BroadcastEv.pushChild) := by
    rw [on_start_trace, List.append_assoc]
  have htr2 : on_start_trace parent children =
      (popPart parent ++ (children.map BroadcastEv.issueCopy ++ syncPart children)) ++
        children.map BroadcastEv.pushChild := by
    rw [on_start_trace, List.append_assoc, List.append_assoc]
  refine ⟨?_, ?_, ?_, ?_, ?_, ?_, ?_⟩
  · have hA : List.countP isSyncEv (popPart parent) = 0 :=
      List.countP_eq_zero.mpr fun e he => by simp [(popPart_class parent e he).1]
    have hB : List.countP isSyncEv (children.map BroadcastEv.issueCopy) = 0 :=
      List.countP_eq_zero.mpr fun e he => by simp [(copies_class children e he).1]
    have hD : List.countP isSyncEv (children.map BroadcastEv.pushChild) = 0 :=
      List.countP_eq_zero.mpr fun e he => by simp [(pushes_class children e he).1]
    rw [on_start_trace, List.countP_append, List.countP_append,
      List.countP_append, hA, hB, hD]
    simp [syncPart, hce, isSyncEv, List.countP_cons]
  · intro c
    have hA : List.countP (fun e => e == BroadcastEv.issueCopy c)
        (popPart parent) = 0 :=
      List.countP_eq_zero.mpr fun e he => by
        simp [beq_issueCopy_false c e (popPart_class parent e he).2.1]
    have hC : List.countP (fun e => e == BroadcastEv.issueCopy c)
        (syncPart children) = 0 :=
      List.countP_eq_zero.mpr fun e he => by
        simp [beq_issueCopy_false c e (syncPart_class children e he).1]
    have hD : List.countP (fun e => e == BroadcastEv.issueCopy c)
        (children.map BroadcastEv.pushChild) = 0 :=
      List.countP_eq_zero.mpr fun e he => by
        simp [beq_issueCopy_false c e (pushes_class children e he).2.1]
    rw [on_start_trace, List.countP_append, List.countP_append,
      List.countP_append, hA, hC, hD, List.countP_map]
    simp only [Nat.zero_add, Nat.add_zero]
    refine List.countP_congr fun x _ => ?_
    simp [List.count]
  · intro c
    have hA : List.countP (fun e => e == BroadcastEv.pushChild c)
        (popPart parent) = 0 :=
      List.countP_eq_zero.mpr fun e he => by
        simp [beq_pushChild_false c e (popPart_class parent e he).2.2]
    have hB : List.countP (fun e => e == BroadcastEv.pushChild c)
        (children.map BroadcastEv.issueCopy) = 0 :=
      List.countP_eq_zero.mpr fun e he => by
        simp [beq_pushChild_false c e (copies_class children e he).2.1]
    have hC : List.countP (fun e => e == BroadcastEv.pushChild c)
        (syncPart children) = 0 :=
      List.countP_eq_zero.mpr fun e he => by
        simp [beq_pushChild_false c e (syncPart_class children e he).2.1]
    rw [on_start_trace, List.countP_append, List.countP_append,
      List.countP_append, hA, hB, hC, List.countP_map]
    simp only [Nat.zero_add, Nat.add_zero]
    refine List.countP_congr fun x _ => ?_
    simp [List.count]
  · intro p hp
    subst hp
    simp [on_start_trace, popPart]
  · rw [htr1]
    intro i j hpi hqj
    refine seg_lt isCopyEv isSyncEv _ _ ?_ ?_ i j hpi hqj
    · intro e he
      rcases List.mem_append.mp he with h | h
      · exact (syncPart_class children e h).1
      · exact (pushes_class children e h).2.1
    · intro e he
      rcases List.mem_append.mp he with h | h
      · exact (popPart_class parent e h).1
      · exact (copies_class children e h).1
  · rw [htr2]
    intro i j hpi hqj
    refine seg_lt isSyncEv isPushEv _ _ ?_ ?_ i j hpi hqj
    · intro e he
      exact (pushes_class children e he).1
    · intro e he
      rcases List.mem_append.mp he with h | h
      · exact (popPart_class parent e h).2.2
      · rcases List.mem_append.mp h with h' | h'
        · exact (copies_class children e h').2.1
        · exact (syncPart_class children e h').2.1
  · have htr0 : on_start_trace parent children =
        popPart parent ++
          (children.map BroadcastEv.issueCopy ++
            (syncPart children ++ children.map BroadcastEv.pushChild)) := rfl
    rw [htr0]
    intro i j hpi hqj
    refine seg_lt isPopEv isPushEv _ _ ?_ ?_ i j hpi hqj
    · intro e he
      rcases List.mem_append.mp he with h | h
      · exact (copies_class children e h).2.2
      · rcases List.mem_append.mp h with h' | h'
        · exact (syncPart_class children e h').2.2
        · exact (pushes_class children e h').2.2
    · intro e he
      exact (popPart_class parent e he).2.2

/-- C2 (witness): the on_start protocol theorem instantiated for a worker
with parent 7 and children [1, 2]. -/
theorem on_start_protocol_witness :
    (([1, 2] : List Int) ≠ []) ∧
    ((on_start_trace (some 7) [1, 2]).countP isSyncEv = 1 ∧
      (∀ c, (on_start_trace (some 7) [1, 2]).countP
        (fun e => e == BroadcastEv.issueCopy c) = ([1, 2] : List Int).count c) ∧
      (∀ c, (on_start_trace (some 7) [1, 2]).countP
        (fun e => e == BroadcastEv.pushChild c) = ([1, 2] : List Int).count c) ∧
      (∀ p, (some 7 : Option Int) = some p →
        (on_start_trace (some 7) [1, 2]).head? = some (.popParent p)) ∧
      (∀ i j : Fin (on_start_trace (some 7) [1, 2]).length,
        isCopyEv ((on_start_trace (some 7) [1, 2]).get i) = true →
        isSyncEv ((on_start_trace (some 7) [1, 2]).get j) = true → i < j) ∧
      (∀ i j : Fin (on_start_trace (some 7) [1, 2]).length,
        isSyncEv ((on_start_trace (some 7) [1, 2]).get i) = true →
        isPushEv ((on_start_trace (some 7) [1, 2]).get j) = true → i < j) ∧
      (∀ i j : Fin (on_start_trace (some 7) [1, 2]).length,
        isPopEv ((on_start_trace (some 7) [1, 2]).get i) = true →
        isPushEv ((on_start_trace (some 7) [1, 2]).get j) = true → i < j)) :=
  ⟨by decide, on_start_protocol (some 7) [1, 2] (by decide)⟩

end Caffe
